import Mathlib

/-!
A verification development for the email-assassin mailbox triage engine.

The Rust source is shallowly embedded: pure helpers (`parse_sender`,
provider-independent chunking, the search-query construction) become Lean
functions on `List Char` / `List Nat`; the effectful routines
(`connect_imap`, `nuke_sender`, `handle_delete`, `run_scan`, `handle_scan`)
become functions from an explicit environment describing the protocol
outcomes to the trace of operations/events they emit together with their
result.  Progress fractions computed in `f32` by the source are modelled as
exact rationals.
-/

namespace EmailAssassin

/-- Error taxonomy of the application (src/error.rs, `AppError`). -/
inductive AppError where
  | Imap (msg : String)
  | Tls (msg : String)
  | Auth (msg : String)
  | Connection (msg : String)
  deriving DecidableEq, Repr

/-- The human-readable rendering of each error, following the
`#[error("...")]` attributes in src/error.rs. -/
def AppError.message : AppError → String
  | .Imap m => "IMAP error: " ++ m
  | .Tls m => "TLS error: " ++ m
  | .Auth m => "Authentication failed: " ++ m
  | .Connection m => "Connection failed: " ++ m

/-! ## Chunking

Rust's `slice::chunks(k)` (used by `run_scan` with the scan chunk size and
by `nuke_sender` with chunk size 1000) yields consecutive sub-slices of
length `k`, the last one possibly shorter.  The embedding uses a fuel
argument (the list length) to make the recursion structural. -/

/-- Fuel-driven worker for `chunksOf`; `fuel ≥ l.length` guarantees the
fuel never runs out, since every step consumes at least one element. -/
def chunksOfAux (k : Nat) : Nat → List α → List (List α)
  | 0, _ => []
  | _, [] => []
  | fuel + 1, x :: xs => (x :: xs.take (k - 1)) :: chunksOfAux k fuel (xs.drop (k - 1))

/-- Embedding of `slice::chunks(k)` for `k ≥ 1`. -/
def chunksOf (k : Nat) (l : List α) : List (List α) :=
  chunksOfAux k l.length l

theorem chunksOfAux_flatten (k : Nat) :
    ∀ (fuel : Nat) (l : List α), l.length ≤ fuel → (chunksOfAux k fuel l).flatten = l := by
  intro fuel
  induction fuel with
  | zero =>
    intro l hl
    cases l with
    | nil => rfl
    | cons x xs => simp at hl
  | succ fuel ih =>
    intro l hl
    cases l with
    | nil => rfl
    | cons x xs =>
      have hlen : (xs.drop (k - 1)).length ≤ fuel := by
        simp only [List.length_drop]
        simp only [List.length_cons] at hl
        omega
      simp only [chunksOfAux, List.flatten_cons, ih _ hlen, List.cons_append]
      rw [List.take_append_drop]

/-- The chunks concatenate back to the original list. -/
theorem chunksOf_flatten (k : Nat) (l : List α) : (chunksOf k l).flatten = l :=
  chunksOfAux_flatten k l.length l le_rfl

theorem chunksOfAux_ne_nil (k : Nat) :
    ∀ (fuel : Nat) (l : List α), ∀ c ∈ chunksOfAux k fuel l, c ≠ [] := by
  intro fuel
  induction fuel with
  | zero => intro l c hc; simp [chunksOfAux] at hc
  | succ fuel ih =>
    intro l c hc
    cases l with
    | nil => simp [chunksOfAux] at hc
    | cons x xs =>
      simp only [chunksOfAux, List.mem_cons] at hc
      rcases hc with h | h
      · subst h; simp
      · exact ih _ c h

/-- Every chunk is non-empty. -/
theorem chunksOf_ne_nil (k : Nat) (l : List α) : ∀ c ∈ chunksOf k l, c ≠ [] :=
  chunksOfAux_ne_nil k l.length l

theorem chunksOfAux_length (k : Nat) (hk : 1 ≤ k) :
    ∀ (fuel : Nat) (l : List α), l.length ≤ fuel →
      (chunksOfAux k fuel l).length = (l.length + k - 1) / k := by
  intro fuel
  induction fuel with
  | zero =>
    intro l hl
    cases l with
    | nil =>
      simp only [chunksOfAux, List.length_nil]
      rw [Nat.div_eq_of_lt (by omega)]
    | cons x xs => simp at hl
  | succ fuel ih =>
    intro l hl
    cases l with
    | nil =>
      simp only [chunksOfAux, List.length_nil]
      rw [Nat.div_eq_of_lt (by omega)]
    | cons x xs =>
      have hlen : (xs.drop (k - 1)).length ≤ fuel := by
        simp only [List.length_drop]
        simp only [List.length_cons] at hl
        omega
      simp only [chunksOfAux, List.length_cons, ih _ hlen, List.length_drop]
      by_cases hcase : k - 1 ≤ xs.length
      · have h1 : xs.length - (k - 1) + k - 1 = xs.length := by omega
        have h2 : xs.length + 1 + k - 1 = xs.length + k := by omega
        rw [h1, h2, Nat.add_div_right _ (by omega : 0 < k)]
      · have h1 : xs.length - (k - 1) + k - 1 = k - 1 := by omega
        have h2 : (k - 1) / k = 0 := Nat.div_eq_of_lt (by omega)
        rw [h1, h2]
        have h3 : (xs.length + 1 + k - 1) / k = 1 :=
          Nat.div_eq_of_lt_le (by omega) (by omega)
        omega

/-- The number of chunks is `⌈l.length / k⌉`. -/
theorem chunksOf_length (k : Nat) (hk : 1 ≤ k) (l : List α) :
    (chunksOf k l).length = (l.length + k - 1) / k :=
  chunksOfAux_length k hk l.length l le_rfl

/-- On a duplicate-free list (enumeration yields sorted, deduplicated
identifiers) the chunks are pairwise disjoint. -/
theorem chunksOf_pairwise_disjoint (k : Nat) (l : List α) (hl : l.Nodup) :
    (chunksOf k l).Pairwise List.Disjoint := by
  rw [← chunksOf_flatten k l] at hl
  exact (List.nodup_flatten.mp hl).2

/-- Fixed worker-pool size (src/imap/scanner.rs, `MAX_CONCURRENT`). -/
def MAX_CONCURRENT : Nat := 10

/-- The chunk partition computed by `run_scan` (src/imap/scanner.rs lines
148-149): `chunk_size = (total / MAX_CONCURRENT).max(1)` followed by
`uids.chunks(chunk_size)`.  The source fixes the concurrency to
`MAX_CONCURRENT`; keeping it as a parameter makes the quantification over
concurrency statable. -/
def scanChunks (concurrency : Nat) (uids : List Nat) : List (List Nat) :=
  chunksOf (Nat.max (uids.length / concurrency) 1) uids

/-- The chunk count of the scan partition is bounded by `2·c − 1`. -/
theorem scanChunks_length_le (c : Nat) (hc : 1 ≤ c) (l : List Nat) (hl : l ≠ []) :
    (scanChunks c l).length ≤ 2 * c - 1 := by
  have hn : 1 ≤ l.length := List.length_pos.mpr hl
  unfold scanChunks
  set k := Nat.max (l.length / c) 1 with hkdef
  have hk1 : 1 ≤ k := le_max_right _ _
  rw [chunksOf_length _ hk1]
  rcases le_or_lt (l.length / c) 1 with hle | hgt
  · have hk : k = 1 := by rw [hkdef]; exact Nat.max_eq_right hle
    have hlt : l.length < 2 * c := by
      have := (Nat.div_lt_iff_lt_mul (by omega : 0 < c)).mp (by omega : l.length / c < 2)
      omega
    rw [hk]
    omega
  · have hk : k = l.length / c := by rw [hkdef]; exact Nat.max_eq_left (by omega)
    have hk2 : 2 ≤ k := by omega
    have e1 : l.length = c * k + l.length % c := by
      rw [hk]
      exact (Nat.div_add_mod _ _).symm
    have hr : l.length % c < c := Nat.mod_lt _ (by omega)
    have hck : c + k - 1 ≤ c * k := by
      have h1 : k - 1 ≤ c * (k - 1) := Nat.le_mul_of_pos_left _ (by omega)
      have h2 : c * k = c * (k - 1) + c := by
        conv_lhs => rw [← Nat.succ_pred_eq_of_pos (show 0 < k by omega)]
        rw [Nat.mul_succ, Nat.pred_eq_sub_one]
      omega
    have hlt : l.length + k - 1 < 2 * (c * k) := by omega
    have hdiv : (l.length + k - 1) / k < 2 * c :=
      (Nat.div_lt_iff_lt_mul (by omega : 0 < k)).mpr
        (by rw [Nat.mul_assoc]; exact hlt)
    omega

/-- C3 counterexample: 19 identifiers with concurrency `MAX_CONCURRENT = 10`
give `chunk_size = max(1, 19/10) = 1` and therefore 19 chunks, which exceeds
concurrency + 1 = 11.  The claimed chunk-count bound is false. -/
theorem scanChunks_count_exceeds_bound :
    (scanChunks MAX_CONCURRENT (List.range 19)).length = 19 ∧
      ¬ (scanChunks MAX_CONCURRENT (List.range 19)).length ≤ MAX_CONCURRENT + 1 := by
  constructor <;> decide

/-- C3 (amended): for every non-empty identifier list and concurrency ≥ 1 the
scan partition with `chunkSize = max(1, total/concurrency)` yields non-empty
contiguous chunks that concatenate back to the input (hence, on the
duplicate-free enumeration output, pairwise-disjoint chunks whose union is the
input set), and the number of chunks is at most `2·concurrency − 1`.  The
originally claimed bound `concurrency + 1` fails (see the counterexample);
`2·concurrency − 1` is the tight bound, attained at `total = 2·concurrency − 1`. -/
theorem scanChunks_partition (c : Nat) (hc : 1 ≤ c) (uids : List Nat) (hu : uids ≠ []) :
    (scanChunks c uids).flatten = uids ∧
      (∀ chunk ∈ scanChunks c uids, chunk ≠ []) ∧
      (uids.Nodup → (scanChunks c uids).Pairwise List.Disjoint) ∧
      (scanChunks c uids).length ≤ 2 * c - 1 :=
  ⟨chunksOf_flatten _ uids, chunksOf_ne_nil _ uids,
    fun hnd => chunksOf_pairwise_disjoint _ uids hnd,
    scanChunks_length_le c hc uids hu⟩

/-- Witness for `scanChunks_partition` at concurrency 1 and the identifier
list `[3, 1, 2]`. -/
theorem scanChunks_partition_witness :
    (scanChunks 1 [3, 1, 2]).flatten = [3, 1, 2] ∧
      (∀ chunk ∈ scanChunks 1 [3, 1, 2], chunk ≠ []) ∧
      ([3, 1, 2].Nodup → (scanChunks 1 [3, 1, 2]).Pairwise List.Disjoint) ∧
      (scanChunks 1 [3, 1, 2]).length ≤ 2 * 1 - 1 :=
  scanChunks_partition 1 (by decide) [3, 1, 2] (by decide)

/-! ## Sender extraction (src/imap/scanner.rs, `parse_sender`)

`parse_sender` applies the regex `(?i)From:\s*(.*)` to the raw header text,
trims the first capture, prefers the text captured by `<([^>]+)>` inside it,
otherwise uses the trimmed text itself, lowercases the result, and falls
back to the literal `"unknown"`.  The two regexes are embedded directly:
`findFrom` is the leftmost case-insensitive occurrence of `From:` (with the
following `\s*` able to cross line breaks and `(.*)` stopping at the next
line break), `findAngle` the leftmost `<...>` group with a non-empty body. -/

/-- The character class `\s` of the regex crate, restricted to ASCII (the
same set Rust's `str::trim` removes on ASCII input). -/
def rxSpace (c : Char) : Bool :=
  c = ' ' || c = '\t' || c = '\n' || c = '\r' || c = '\x0b' || c = '\x0c'

/-- ASCII lowercasing, as performed by `str::to_lowercase` on ASCII text. -/
def toLowerStr (l : List Char) : List Char :=
  l.map Char.toLower

/-- Does `l` start with the pattern `pat` (given lowercase), compared
case-insensitively? -/
def startsWithCI (pat : List Char) (l : List Char) : Bool :=
  (l.take pat.length).map Char.toLower == pat

/-- Leftmost case-insensitive occurrence of `From:`; returns the text right
after the colon (the regex `(?i)From:` part of `FROM_RE`). -/
def findFrom : List Char → Option (List Char)
  | [] => none
  | c :: rest =>
    if startsWithCI ['f', 'r', 'o', 'm', ':'] (c :: rest) then
      some ((c :: rest).drop 5)
    else findFrom rest

/-- `str::trim` on ASCII text: whitespace removed from both ends. -/
def trimChars (l : List Char) : List Char :=
  ((l.dropWhile rxSpace).reverse.dropWhile rxSpace).reverse

/-- Leftmost match of `EMAIL_RE = <([^>]+)>`: the first `<` followed by at
least one non-`>` character and then a `>`; returns the captured group. -/
def findAngle : List Char → Option (List Char)
  | [] => none
  | '<' :: rest =>
    let inside := rest.takeWhile (fun c => c ≠ '>')
    if inside ≠ [] ∧ inside.length < rest.length then some inside
    else findAngle rest
  | _ :: rest => findAngle rest

/-- The sentinel the scanner uses for a header with no extractable sender. -/
def unknownStr : List Char := ['u', 'n', 'k', 'n', 'o', 'w', 'n']

/-- Embedding of `parse_sender` (src/imap/scanner.rs lines 25-38). -/
def parse_sender (raw : List Char) : List Char :=
  match findFrom raw with
  | none => unknownStr
  | some afterColon =>
    let raw_from := trimChars ((afterColon.dropWhile rxSpace).takeWhile (fun c => c ≠ '\n'))
    match findAngle raw_from with
    | some inside => toLowerStr inside
    | none => if raw_from ≠ [] then toLowerStr raw_from else unknownStr

/-- The sender list produced by `ScanWorker::scan_batch` for one batch of
successfully fetched headers (src/imap/scanner.rs lines 113-122): each
header is parsed and the `"unknown"` sentinel is filtered out. -/
def scan_batch_senders (headers : List (List Char)) : List (List Char) :=
  (headers.map parse_sender).filter (fun s => s ≠ unknownStr)

/-- The `"unknown"` sentinel never survives the `scan_batch` filter, so it
never reaches the aggregate. -/
theorem scan_batch_count_unknown (hs : List (List Char)) :
    (scan_batch_senders hs).count unknownStr = 0 := by
  rw [List.count_eq_zero]
  intro hmem
  have := List.of_mem_filter hmem
  simp at this

/-- A batch contributes at most one sender per fetched header. -/
theorem scan_batch_length_le (hs : List (List Char)) :
    (scan_batch_senders hs).length ≤ hs.length :=
  le_trans (List.length_filter_le _ _) (le_of_eq (List.length_map hs parse_sender))

/-- C4: `From: "Bob" <BOB@Example.com>` normalizes to `bob@example.com`
(the address in angle brackets is preferred and lowercased);
`From: marketing-team` normalizes to the raw trimmed text `marketing-team`;
a header in which no case-insensitive `From:` occurs parses to the sentinel,
and in every batch the sentinel is recorded under no aggregate key — the
batch contributes at most one sender per successfully parsed header. -/
theorem parse_sender_normalization :
    parse_sender "From: \"Bob\" <BOB@Example.com>".data = "bob@example.com".data ∧
      parse_sender "From: marketing-team".data = "marketing-team".data ∧
      (∀ h : List Char, findFrom h = none → parse_sender h = unknownStr) ∧
      (∀ hs : List (List Char),
        (scan_batch_senders hs).count unknownStr = 0 ∧
          (scan_batch_senders hs).length ≤ hs.length) :=
  ⟨by decide, by decide,
    fun h hnone => by simp [parse_sender, hnone],
    fun hs => ⟨scan_batch_count_unknown hs, scan_batch_length_le hs⟩⟩

/-- Witness for `parse_sender_normalization`: the header `Subject: hi` has no
`From:` occurrence and parses to the sentinel. -/
theorem parse_sender_normalization_witness :
    findFrom "Subject: hi".data = none ∧ parse_sender "Subject: hi".data = unknownStr :=
  ⟨by decide, parse_sender_normalization.2.2.1 "Subject: hi".data (by decide)⟩

/-- C10: the scanner's no-sender sentinel is the literal string `unknown`;
a header `From: Unknown` (no angle brackets) normalizes to exactly that
sentinel, contributes nothing to the batch, and no batch result ever
contains the sentinel — a genuine sender normalizing to `unknown` can never
appear in the scan aggregate. -/
theorem unknown_sentinel_excluded :
    parse_sender "From: Unknown".data = unknownStr ∧
      scan_batch_senders ["From: Unknown".data] = [] ∧
      (∀ hs : List (List Char), (scan_batch_senders hs).count unknownStr = 0) :=
  ⟨by decide, by decide, scan_batch_count_unknown⟩

/-! ## The delete search query (src/imap/deleter.rs, `nuke_sender`) -/

/-- The search query built by `nuke_sender` (src/imap/deleter.rs line 45):
`format!("FROM \"{}\"", sender)`.  The sender is embedded verbatim, with no
character stripped. -/
def nukeSearchQuery (sender : List Char) : List Char :=
  "FROM \"".data ++ sender ++ "\"".data

/-- C1 counterexample: the address `evil"OR"x` is NOT sanitized — the query
keeps both embedded double quotes (4 quote characters in total), instead of
the claimed `FROM "evilORx"`. -/
theorem nukeSearchQuery_not_sanitized :
    nukeSearchQuery "evil\"OR\"x".data ≠ "FROM \"evilORx\"".data ∧
      (nukeSearchQuery "evil\"OR\"x".data).count '"' = 4 := by
  constructor <;> decide

/-- C1 (amended): `nuke_sender` performs no sanitization before embedding the
address in the query literal `FROM "<address>"`: the query contains exactly
two quote characters more than the address itself, so every quote of the
address survives; the address `evil"OR"x` yields the query
`FROM "evil"OR"x"`. -/
theorem nukeSearchQuery_verbatim :
    (∀ sender : List Char,
        (nukeSearchQuery sender).count '"' = sender.count '"' + 2) ∧
      nukeSearchQuery "evil\"OR\"x".data = "FROM \"evil\"OR\"x\"".data := by
  constructor
  · intro sender
    have h1 : ("FROM \"".data).count '"' = 1 := by decide
    have h2 : ("\"".data).count '"' = 1 := by decide
    rw [nukeSearchQuery, List.count_append, List.count_append, h1, h2]
    omega
  · decide

/-! ## Session opening (src/imap/mod.rs and src/imap/deleter.rs)

The repository contains two distinct connect routines: the public
`connect_imap` in src/imap/mod.rs (used by `fetch_all_uids` and the scan
workers), which wraps the TCP connect in a 30-second
`async_std::future::timeout`, and a private `connect_imap` in
src/imap/deleter.rs (used by `nuke_sender`), which performs the same
sequence with NO timeout.  The environment records how long the TCP connect
takes and the outcome of each step. -/

/-- Outcomes of the four protocol steps a connect performs, plus the time
the TCP connect takes (in seconds). -/
structure ConnectEnv where
  tcpSeconds : Nat
  tcpResult : Except String Unit
  tlsResult : Except String Unit
  loginResult : Except String Unit
  selectResult : Except String Unit

/-- `CONNECT_TIMEOUT` of src/imap/mod.rs, in seconds. -/
def CONNECT_TIMEOUT : Nat := 30

/-- Embedding of `connect_imap` from src/imap/mod.rs (lines 11-44): a TCP
connect still pending after `CONNECT_TIMEOUT` yields a `Connection` error
with the fixed timeout message; otherwise TCP, TLS, login and select run in
order, mapped to `Connection`, `Tls`, `Auth` and `Imap` errors. -/
def connect_imap (env : ConnectEnv) : Except AppError Unit :=
  if CONNECT_TIMEOUT < env.tcpSeconds then
    .error (.Connection "TCP connect timed out after 30s")
  else
    match env.tcpResult with
    | .error e => .error (.Connection e)
    | .ok _ =>
      match env.tlsResult with
      | .error e => .error (.Tls e)
      | .ok _ =>
        match env.loginResult with
        | .error e => .error (.Auth e)
        | .ok _ =>
          match env.selectResult with
          | .error e => .error (.Imap e)
          | .ok _ => .ok ()

/-- Embedding of the private `connect_imap` from src/imap/deleter.rs (lines
5-32): the same step sequence, but the TCP connect is unbounded — the time
it takes never produces an error. -/
def deleter_connect_imap (env : ConnectEnv) : Except AppError Unit :=
  match env.tcpResult with
  | .error e => .error (.Connection e)
  | .ok _ =>
    match env.tlsResult with
    | .error e => .error (.Tls e)
    | .ok _ =>
      match env.loginResult with
      | .error e => .error (.Auth e)
      | .ok _ =>
        match env.selectResult with
        | .error e => .error (.Imap e)
        | .ok _ => .ok ()

/-- C2 counterexample: on the per-sender delete path the connect is NOT
bounded — a TCP connect taking 31 seconds simply succeeds, while the
enumeration/scan path (`connect_imap` of src/imap/mod.rs) times it out. -/
theorem deleter_connect_no_timeout :
    deleter_connect_imap ⟨31, .ok (), .ok (), .ok (), .ok ()⟩ = .ok () ∧
      connect_imap ⟨31, .ok (), .ok (), .ok (), .ok ()⟩ =
        .error (.Connection "TCP connect timed out after 30s") := by
  constructor <;> rfl

/-- C2 (amended): the session-opening path used by enumeration and the scan
workers bounds the TCP connect with a 30-second timeout whose error is the
`Connection` variant carrying the fixed timeout message (distinguishable by
message, not by variant, from other connection failures); the per-sender
delete path opens sessions with NO connect timeout.  On both paths a TLS
failure yields `Tls` and an authentication failure yields `Auth`, and those
constructors are pairwise distinct from each other and from
`Connection`/`Imap`. -/
theorem connect_error_taxonomy (env : ConnectEnv) (m : String) :
    (CONNECT_TIMEOUT < env.tcpSeconds →
        connect_imap env = .error (.Connection "TCP connect timed out after 30s")) ∧
      (env.tcpSeconds ≤ CONNECT_TIMEOUT → env.tcpResult = .error m →
        connect_imap env = .error (.Connection m)) ∧
      (env.tcpSeconds ≤ CONNECT_TIMEOUT → env.tcpResult = .ok () →
        env.tlsResult = .error m → connect_imap env = .error (.Tls m)) ∧
      (env.tcpSeconds ≤ CONNECT_TIMEOUT → env.tcpResult = .ok () →
        env.tlsResult = .ok () → env.loginResult = .error m →
        connect_imap env = .error (.Auth m)) ∧
      (env.tcpResult = .ok () → env.tlsResult = .error m →
        deleter_connect_imap env = .error (.Tls m)) ∧
      (env.tcpResult = .ok () → env.tlsResult = .ok () → env.loginResult = .error m →
        deleter_connect_imap env = .error (.Auth m)) ∧
      (∀ m' : String, AppError.Tls m ≠ .Connection m' ∧ AppError.Auth m ≠ .Connection m' ∧
        AppError.Auth m ≠ .Tls m' ∧ AppError.Tls m ≠ .Imap m' ∧ AppError.Auth m ≠ .Imap m') := by
  refine ⟨?_, ?_, ?_, ?_, ?_, ?_, ?_⟩
  · intro h
    simp [connect_imap, h]
  · intro h1 h2
    have hn : ¬ CONNECT_TIMEOUT < env.tcpSeconds := by omega
    simp [connect_imap, hn, h2]
  · intro h1 h2 h3
    have hn : ¬ CONNECT_TIMEOUT < env.tcpSeconds := by omega
    simp [connect_imap, hn, h2, h3]
  · intro h1 h2 h3 h4
    have hn : ¬ CONNECT_TIMEOUT < env.tcpSeconds := by omega
    simp [connect_imap, hn, h2, h3, h4]
  · intro h1 h2
    simp [deleter_connect_imap, h1, h2]
  · intro h1 h2 h3
    simp [deleter_connect_imap, h1, h2, h3]
  · intro m'
    refine ⟨?_, ?_, ?_, ?_, ?_⟩ <;> intro h <;> exact AppError.noConfusion h

/-- Witness for `connect_error_taxonomy`: the timeout conjunct at a
31-second connect, and the deleter-path TLS conjunct at a failing TLS
handshake. -/
theorem connect_error_taxonomy_witness :
    (CONNECT_TIMEOUT < 31 ∧
        connect_imap ⟨31, .ok (), .ok (), .ok (), .ok ()⟩ =
          .error (.Connection "TCP connect timed out after 30s")) ∧
      deleter_connect_imap ⟨0, .ok (), .error "handshake", .ok (), .ok ()⟩ =
        .error (.Tls "handshake") :=
  ⟨⟨by decide,
      (connect_error_taxonomy ⟨31, .ok (), .ok (), .ok (), .ok ()⟩ "handshake").1 (by decide)⟩,
    (connect_error_taxonomy ⟨0, .ok (), .error "handshake", .ok (), .ok ()⟩
        "handshake").2.2.2.2.1 rfl rfl⟩

/-! ## Bulk delete (src/imap/deleter.rs, `nuke_sender`)

`nuke_sender` (lines 34-92) searches the sender's identifiers, returns 0 if
none match, otherwise walks chunks of 1000: `uid_mv` per chunk in trash
mode, `uid_store "+FLAGS (\Deleted)"` followed by `expunge` per chunk in
permanent mode; any failing command propagates its error immediately via
`?`, so on failure no further chunk is touched and the final `logout` is
skipped.  The environment gives the search result and the outcome of the
n-th bulk command issued. -/

/-- The protocol commands `nuke_sender` can issue after the search; the
`Nat` argument records how many identifiers the command addressed. -/
inductive DeleteOp where
  | markDeleted (n : Nat)
  | expunge
  | move (n : Nat)
  | logout
  deriving DecidableEq, Repr

/-- Environment of one `nuke_sender` run: the identifiers its `uid_search`
returned and, for each bulk command issued (indexed from 0), `none` for
success or `some msg` for a server error. -/
structure DeleterEnv where
  searchResult : List Nat
  opOutcome : Nat → Option String

/-- The per-chunk loop of `nuke_sender` (src/imap/deleter.rs lines 61-88),
returning the issued commands and the first error, if any. -/
def nuke_chunks (useTrash : Bool) (outcome : Nat → Option String) :
    List (List Nat) → Nat → List DeleteOp × Option AppError
  | [], _ => ([], none)
  | chunk :: rest, i =>
    if useTrash then
      match outcome i with
      | some e => ([.move chunk.length], some (.Imap e))
      | none =>
        let r := nuke_chunks useTrash outcome rest (i + 1)
        (.move chunk.length :: r.1, r.2)
    else
      match outcome i with
      | some e => ([.markDeleted chunk.length], some (.Imap e))
      | none =>
        match outcome (i + 1) with
        | some e => ([.markDeleted chunk.length, .expunge], some (.Imap e))
        | none =>
          let r := nuke_chunks useTrash outcome rest (i + 2)
          (.markDeleted chunk.length :: .expunge :: r.1, r.2)

/-- Embedding of `nuke_sender` (src/imap/deleter.rs lines 34-92) after a
successful connect and search: the trace of bulk commands plus the result. -/
def nuke_sender (env : DeleterEnv) (useTrash : Bool) :
    List DeleteOp × Except AppError Nat :=
  let uids := env.searchResult
  if uids.length = 0 then ([.logout], .ok 0)
  else
    match nuke_chunks useTrash env.opOutcome (chunksOf 1000 uids) 0 with
    | (ops, none) => (ops ++ [.logout], .ok uids.length)
    | (ops, some e) => (ops, .error e)

/-- Unfolding `chunksOf` on a non-empty list. -/
theorem chunksOf_cons (k : Nat) (x : α) (xs : List α) :
    chunksOf k (x :: xs) =
      (x :: xs.take (k - 1)) :: chunksOfAux k xs.length (xs.drop (k - 1)) := rfl

/-- If the very first bulk command fails, the loop stops after that one
command and reports its error. -/
theorem nuke_chunks_first_fails (useTrash : Bool) (outcome : Nat → Option String)
    (chunk : List Nat) (rest : List (List Nat)) (i : Nat) (e : String)
    (h : outcome i = some e) :
    nuke_chunks useTrash outcome (chunk :: rest) i =
      ([if useTrash then .move chunk.length else .markDeleted chunk.length],
        some (.Imap e)) := by
  cases useTrash <;> simp [nuke_chunks, h]

set_option maxRecDepth 100000 in
/-- C5: with no matching identifier `nuke_sender` logs out and returns 0 (not
an error); with 1500 matching identifiers, permanent mode issues exactly the
two mark+expunge pairs for chunk sizes 1000 and 500 and trash mode exactly
two moves, each followed by the logout and returning 1500; a failure of the
first bulk command yields exactly one issued command and the propagated
error — in general, whenever the first command fails, exactly one command is
issued and the error is returned, so the remaining chunks are aborted. -/
theorem nuke_sender_chunking :
    (∀ (env : DeleterEnv) (useTrash : Bool), env.searchResult = [] →
        nuke_sender env useTrash = ([.logout], .ok 0)) ∧
      nuke_sender ⟨List.range 1500, fun _ => none⟩ false =
        ([.markDeleted 1000, .expunge, .markDeleted 500, .expunge, .logout], .ok 1500) ∧
      nuke_sender ⟨List.range 1500, fun _ => none⟩ true =
        ([.move 1000, .move 500, .logout], .ok 1500) ∧
      nuke_sender ⟨List.range 1500, fun i => if i = 0 then some "boom" else none⟩ false =
        ([.markDeleted 1000], .error (.Imap "boom")) ∧
      nuke_sender ⟨List.range 1500, fun i => if i = 0 then some "boom" else none⟩ true =
        ([.move 1000], .error (.Imap "boom")) ∧
      (∀ (uids : List Nat) (out : Nat → Option String) (e : String) (useTrash : Bool),
        uids ≠ [] → out 0 = some e →
          (nuke_sender ⟨uids, out⟩ useTrash).1.length = 1 ∧
            (nuke_sender ⟨uids, out⟩ useTrash).2 = .error (.Imap e)) := by
  refine ⟨?_, rfl, rfl, rfl, rfl, ?_⟩
  · intro env useTrash h
    simp [nuke_sender, h]
  · intro uids out e useTrash hne h0
    cases uids with
    | nil => exact absurd rfl hne
    | cons x xs =>
      simp only [nuke_sender, if_neg (by simp : ¬ (x :: xs).length = 0)]
      rw [chunksOf_cons, nuke_chunks_first_fails _ _ _ _ _ _ h0]
      cases useTrash <;> simp

/-- Witness for `nuke_sender_chunking`: the empty-search and first-command-
failure conjuncts at concrete environments. -/
theorem nuke_sender_chunking_witness :
    nuke_sender ⟨[], fun _ => none⟩ true = ([.logout], .ok 0) ∧
      (nuke_sender ⟨[7], fun _ => some "x"⟩ false).1.length = 1 ∧
        (nuke_sender ⟨[7], fun _ => some "x"⟩ false).2 = .error (.Imap "x") :=
  ⟨nuke_sender_chunking.1 ⟨[], fun _ => none⟩ true rfl,
    nuke_sender_chunking.2.2.2.2.2 [7] (fun _ => some "x") "x" false (by decide) rfl⟩

/-! ## Sequential multi-sender delete (src/bridge.rs, `handle_delete`)

`handle_delete` (lines 167-219) walks the selected senders in order.  For
the i-th sender it emits a `DeleteProgress` with fraction `i/total`, runs
`nuke_sender`, on success accumulates the sender and its count, on failure
emits a `DeleteError` and moves on, then emits a `DeleteProgress` with
fraction `(i+1)/total`; at the end it emits `DeleteComplete` with the
accumulated senders and total.  Fractions the source computes in `f32` are
modelled as exact rationals. -/

/-- The events `handle_delete` emits (a slice of `BackgroundEvent`). -/
inductive DelEvent where
  | progress (fraction : ℚ) (status : String)
  | error (msg : String)
  | complete (removed : List String) (totalRemoved : Nat)
  deriving DecidableEq, Repr

/-- The per-sender loop of `handle_delete` (src/bridge.rs lines 188-213):
given the outcome of `nuke_sender` for each sender position, returns the
emitted events, the accumulated removed senders, and the accumulated count. -/
def purge_loop (outcome : Nat → Except AppError Nat) (total : Nat) :
    List String → Nat → List DelEvent × List String × Nat
  | [], _ => ([], [], 0)
  | s :: rest, i =>
    let beforeEv := DelEvent.progress ((i : ℚ) / (total : ℚ)) ("Purging " ++ s ++ "...")
    let afterEv := DelEvent.progress (((i : ℚ) + 1) / (total : ℚ))
        ("Completed " ++ toString (i + 1) ++ "/" ++ toString total)
    match outcome i with
    | .ok c =>
      let r := purge_loop outcome total rest (i + 1)
      (beforeEv :: afterEv :: r.1, s :: r.2.1, c + r.2.2)
    | .error e =>
      let r := purge_loop outcome total rest (i + 1)
      (beforeEv :: DelEvent.error ("Failed to purge " ++ s ++ ": " ++ e.message) ::
          afterEv :: r.1,
        r.2.1, r.2.2)

/-- Embedding of `handle_delete` (src/bridge.rs lines 167-219): the full
event sequence of one delete operation. -/
def handle_delete (senders : List String) (outcome : Nat → Except AppError Nat) :
    List DelEvent :=
  let r := purge_loop outcome senders.length senders 0
  r.1 ++ [DelEvent.complete r.2.1 r.2.2]

/-- The loop accumulates exactly the senders whose `nuke_sender` call
succeeded, in order, and sums exactly their counts. -/
theorem purge_loop_accumulates (outcome : Nat → Except AppError Nat) (total : Nat) :
    ∀ (l : List String) (i : Nat),
      (purge_loop outcome total l i).2.1 =
          ((l.enumFrom i).filter (fun p => (outcome p.1).isOk)).map Prod.snd ∧
        (purge_loop outcome total l i).2.2 =
          ((l.enumFrom i).filterMap (fun p => (outcome p.1).toOption)).sum := by
  intro l
  induction l with
  | nil => intro i; exact ⟨rfl, rfl⟩
  | cons s rest ih =>
    intro i
    cases hout : outcome i with
    | ok c =>
      simp [purge_loop, hout, List.enumFrom, List.filter_cons, List.filterMap_cons,
        (ih (i + 1)).1, (ih (i + 1)).2, Except.isOk, Except.toBool, Except.toOption]
    | error e =>
      simp [purge_loop, hout, List.enumFrom, List.filter_cons, List.filterMap_cons,
        (ih (i + 1)).1, (ih (i + 1)).2, Except.isOk, Except.toBool, Except.toOption]

/-- C6: `handle_delete` processes senders strictly sequentially; its final
`complete` event carries exactly the senders whose deletion succeeded (in
order) and the sum of exactly their counts, so a failed sender contributes
neither.  Concretely, over `[A, B, C]` with B failing: B's failure yields an
error event, C is still processed and counted, the removed list is `[A, C]`
and the total is A's count plus C's count, and each sender is bracketed by
progress fractions `i/total` and `(i+1)/total`. -/
theorem handle_delete_partial_failure :
    (∀ (senders : List String) (outcome : Nat → Except AppError Nat),
        (handle_delete senders outcome).getLast? =
          some (.complete
            ((senders.enum.filter (fun p => (outcome p.1).isOk)).map Prod.snd)
            ((senders.enum.filterMap (fun p => (outcome p.1).toOption)).sum))) ∧
      handle_delete ["A", "B", "C"]
          (fun i => if i = 0 then .ok 5 else
            if i = 1 then .error (.Imap "boom") else .ok 7) =
        [.progress 0 "Purging A...",
          .progress (1 / 3) "Completed 1/3",
          .progress (1 / 3) "Purging B...",
          .error "Failed to purge B: IMAP error: boom",
          .progress (2 / 3) "Completed 2/3",
          .progress (2 / 3) "Purging C...",
          .progress 1 "Completed 3/3",
          .complete ["A", "C"] 12] := by
  constructor
  · intro senders outcome
    rw [handle_delete, List.getLast?_concat]
    have h := purge_loop_accumulates outcome senders.length senders 0
    rw [h.1, h.2]
    rfl
  · norm_num [handle_delete, purge_loop, AppError.message]
    decide

/-! ## Scan progress (src/imap/scanner.rs `run_scan` and src/bridge.rs
`handle_scan`)

`handle_scan` reports fraction 0.0 before enumeration and 0.05 after it;
`run_scan` then reports, per completed batch,
`INITIAL_PROGRESS + (1 - INITIAL_PROGRESS) * completed/num_chunks` (lines
198-209).  An empty identifier set returns before any batch progress.  The
`f32` fractions are modelled as exact rationals. -/

/-- `INITIAL_PROGRESS = 0.05` of src/imap/scanner.rs. -/
def INITIAL_PROGRESS : ℚ := 1 / 20

/-- The batch-completion progress fractions of `run_scan` (line 207), for
`completed = 1, …, numChunks`, in completion order. -/
def run_scan_progress (numChunks : Nat) : List ℚ :=
  (List.range numChunks).map fun (k : Nat) =>
    INITIAL_PROGRESS + (1 - INITIAL_PROGRESS) * (((k : ℚ) + 1) / (numChunks : ℚ))

/-- All progress fractions one scan operation reports, in order: 0.0 and
0.05 from `handle_scan` (src/bridge.rs lines 114-141), then the per-batch
fractions of `run_scan` over the chunk partition of the scanned subset. -/
def handle_scan_progress (uidsToScan : List Nat) : List ℚ :=
  0 :: INITIAL_PROGRESS :: run_scan_progress (scanChunks MAX_CONCURRENT uidsToScan).length

/-- A non-empty identifier list yields a non-empty chunk partition. -/
theorem scanChunks_ne_nil (c : Nat) (uids : List Nat) (hu : uids ≠ []) :
    scanChunks c uids ≠ [] := by
  intro h
  apply hu
  have hflat := chunksOf_flatten (Nat.max (uids.length / c) 1) uids
  rw [show chunksOf (Nat.max (uids.length / c) 1) uids = scanChunks c uids from rfl,
    h] at hflat
  simpa using hflat.symm

/-- The batch fractions split into a front part and the final fraction 1. -/
theorem run_scan_progress_decomp (N : Nat) (hN : 1 ≤ N) :
    run_scan_progress N =
      ((List.range (N - 1)).map fun (k : Nat) =>
          INITIAL_PROGRESS + (1 - INITIAL_PROGRESS) * (((k : ℚ) + 1) / (N : ℚ))) ++ [1] := by
  have hsplit : List.range N = List.range (N - 1) ++ [N - 1] := by
    conv_lhs => rw [show N = (N - 1) + 1 by omega]
    exact List.range_succ (N - 1)
  rw [run_scan_progress, hsplit, List.map_append]
  congr 1
  simp only [List.map_cons, List.map_nil]
  have hN0 : (N : ℚ) ≠ 0 := Nat.cast_ne_zero.mpr (by omega)
  have hcast : ((N - 1 : Nat) : ℚ) + 1 = (N : ℚ) := by
    rw [Nat.cast_sub (by omega : 1 ≤ N)]
    ring
  rw [hcast, div_self hN0]
  norm_num [INITIAL_PROGRESS]

/-- With at least one chunk, the final batch fraction is exactly 1. -/
theorem run_scan_progress_getLast (N : Nat) (hN : 1 ≤ N) :
    (run_scan_progress N).getLast? = some 1 := by
  rw [run_scan_progress_decomp N hN, List.getLast?_concat]

/-- C7 counterexample: a scan whose identifier set is empty completes after
reporting only the fractions 0 and 1/20 (= 0.05) — its progress sequence
terminates at 1/20, not at 1. -/
theorem scan_progress_empty_stops_at_enumeration :
    handle_scan_progress [] = [0, 1 / 20] ∧
      (handle_scan_progress []).getLast? = some (1 / 20) ∧ (1 / 20 : ℚ) ≠ 1 :=
  ⟨rfl, rfl, by norm_num⟩

set_option maxHeartbeats 1000000 in
/-- C7 (amended): for a scan whose scanned identifier set is non-empty, the
reported fraction sequence is monotonically non-decreasing, every fraction
lies in [0, 1], the sequence terminates at exactly 1, and every fraction
before the last is strictly below 1 (1 is reached only on completion); 5% is
reserved for enumeration and the remaining 95% is divided evenly across the
chunks in completion order.  For an empty scanned set the sequence is just
0 followed by 1/20 (see the counterexample), so the original claim holds
only for non-empty scans. -/
theorem scan_progress_monotone (uids : List Nat) (hu : uids ≠ []) :
    List.Chain' (· ≤ ·) (handle_scan_progress uids) ∧
      (∀ x ∈ handle_scan_progress uids, 0 ≤ x ∧ x ≤ 1) ∧
      (handle_scan_progress uids).getLast? = some 1 ∧
      (∀ x ∈ (handle_scan_progress uids).dropLast, x < 1) := by
  set N := (scanChunks MAX_CONCURRENT uids).length with hNdef
  have hN : 1 ≤ N := by
    have h := scanChunks_ne_nil MAX_CONCURRENT uids hu
    have := List.length_pos.mpr h
    omega
  have hNQ : (0 : ℚ) < (N : ℚ) := by exact_mod_cast Nat.pos_of_ne_zero (by omega)
  have hIP0 : (0 : ℚ) ≤ 1 - INITIAL_PROGRESS := by norm_num [INITIAL_PROGRESS]
  have key : ∀ a b : ℚ, 0 ≤ a → a ≤ b →
      INITIAL_PROGRESS + (1 - INITIAL_PROGRESS) * (a / (N : ℚ)) ≤
        INITIAL_PROGRESS + (1 - INITIAL_PROGRESS) * (b / (N : ℚ)) := by
    intro a b _ hab
    apply add_le_add_left
    apply mul_le_mul_of_nonneg_left _ hIP0
    exact (div_le_div_iff_of_pos_right hNQ).mpr hab
  have hnonneg : ∀ k : Nat,
      (0 : ℚ) ≤ INITIAL_PROGRESS + (1 - INITIAL_PROGRESS) * (((k : ℚ) + 1) / (N : ℚ)) := by
    intro k
    have h1 : (0 : ℚ) ≤ ((k : ℚ) + 1) / (N : ℚ) := by positivity
    have h2 : (0 : ℚ) ≤ (1 - INITIAL_PROGRESS) * (((k : ℚ) + 1) / (N : ℚ)) :=
      mul_nonneg hIP0 h1
    have h3 : (0 : ℚ) ≤ INITIAL_PROGRESS := by norm_num [INITIAL_PROGRESS]
    linarith
  have hle1 : ∀ k : Nat, k < N →
      INITIAL_PROGRESS + (1 - INITIAL_PROGRESS) * (((k : ℚ) + 1) / (N : ℚ)) ≤ 1 := by
    intro k hk
    have hq : ((k : ℚ) + 1) / (N : ℚ) ≤ 1 := by
      rw [div_le_one hNQ]
      exact_mod_cast Nat.succ_le_of_lt hk
    have h2 : (1 - INITIAL_PROGRESS) * (((k : ℚ) + 1) / (N : ℚ)) ≤
        (1 - INITIAL_PROGRESS) * 1 := mul_le_mul_of_nonneg_left hq hIP0
    have : INITIAL_PROGRESS + (1 - INITIAL_PROGRESS) * 1 = 1 := by
      norm_num [INITIAL_PROGRESS]
    linarith
  have hlt1 : ∀ k : Nat, k + 1 < N →
      INITIAL_PROGRESS + (1 - INITIAL_PROGRESS) * (((k : ℚ) + 1) / (N : ℚ)) < 1 := by
    intro k hk
    have hq : ((k : ℚ) + 1) / (N : ℚ) < 1 := by
      rw [div_lt_one hNQ]
      exact_mod_cast hk
    have hIPpos : (0 : ℚ) < 1 - INITIAL_PROGRESS := by norm_num [INITIAL_PROGRESS]
    have h2 : (1 - INITIAL_PROGRESS) * (((k : ℚ) + 1) / (N : ℚ)) <
        (1 - INITIAL_PROGRESS) * 1 := by
      exact mul_lt_mul_of_pos_left hq hIPpos
    have : INITIAL_PROGRESS + (1 - INITIAL_PROGRESS) * 1 = 1 := by
      norm_num [INITIAL_PROGRESS]
    linarith
  have hinit_le : ∀ b ∈ run_scan_progress N, INITIAL_PROGRESS ≤ b := by
    intro b hb
    simp only [run_scan_progress, List.mem_map, List.mem_range] at hb
    obtain ⟨k, _, rfl⟩ := hb
    have h1 : (0 : ℚ) ≤ ((k : ℚ) + 1) / (N : ℚ) := by positivity
    have h2 : (0 : ℚ) ≤ (1 - INITIAL_PROGRESS) * (((k : ℚ) + 1) / (N : ℚ)) :=
      mul_nonneg hIP0 h1
    linarith
  have hform : handle_scan_progress uids =
      0 :: INITIAL_PROGRESS :: run_scan_progress N := rfl
  refine ⟨?_, ?_, ?_, ?_⟩
  · rw [hform]
    refine List.chain'_cons.mpr ⟨by norm_num [INITIAL_PROGRESS], ?_⟩
    refine (List.chain'_cons').mpr ⟨?_, ?_⟩
    · intro b hb
      exact hinit_le b (List.mem_of_mem_head? hb)
    · rw [run_scan_progress]
      rw [List.chain'_map]
      obtain ⟨M, hM⟩ : ∃ M, N = M + 1 := ⟨N - 1, by omega⟩
      rw [show List.range N = List.range (M + 1) from by rw [hM],
        List.chain'_range_succ]
      intro m _
      apply key
      · positivity
      · push_cast
        linarith
  · rw [hform]
    intro x hx
    simp only [List.mem_cons] at hx
    rcases hx with rfl | rfl | hx
    · norm_num
    · norm_num [INITIAL_PROGRESS]
    · simp only [run_scan_progress, List.mem_map, List.mem_range] at hx
      obtain ⟨k, hk, rfl⟩ := hx
      exact ⟨hnonneg k, hle1 k hk⟩
  · rw [hform, run_scan_progress_decomp N hN,
      show (0 : ℚ) :: INITIAL_PROGRESS ::
          (((List.range (N - 1)).map fun (k : Nat) =>
            INITIAL_PROGRESS + (1 - INITIAL_PROGRESS) * (((k : ℚ) + 1) / (N : ℚ))) ++ [1]) =
        ((0 : ℚ) :: INITIAL_PROGRESS ::
          ((List.range (N - 1)).map fun (k : Nat) =>
            INITIAL_PROGRESS + (1 - INITIAL_PROGRESS) * (((k : ℚ) + 1) / (N : ℚ)))) ++ [1]
        from rfl,
      List.getLast?_concat]
  · rw [hform, run_scan_progress_decomp N hN,
      show (0 : ℚ) :: INITIAL_PROGRESS ::
          (((List.range (N - 1)).map fun (k : Nat) =>
            INITIAL_PROGRESS + (1 - INITIAL_PROGRESS) * (((k : ℚ) + 1) / (N : ℚ))) ++ [1]) =
        ((0 : ℚ) :: INITIAL_PROGRESS ::
          ((List.range (N - 1)).map fun (k : Nat) =>
            INITIAL_PROGRESS + (1 - INITIAL_PROGRESS) * (((k : ℚ) + 1) / (N : ℚ)))) ++ [1]
        from rfl,
      List.dropLast_concat]
    intro x hx
    simp only [List.mem_cons] at hx
    rcases hx with rfl | rfl | hx
    · norm_num
    · norm_num [INITIAL_PROGRESS]
    · simp only [List.mem_map, List.mem_range] at hx
      obtain ⟨k, hk, rfl⟩ := hx
      exact hlt1 k (by omega)

/-- Witness for `scan_progress_monotone` at the one-element identifier list
`[42]`. -/
theorem scan_progress_monotone_witness :
    List.Chain' (· ≤ ·) (handle_scan_progress [42]) ∧
      (∀ x ∈ handle_scan_progress [42], 0 ≤ x ∧ x ≤ 1) ∧
      (handle_scan_progress [42]).getLast? = some 1 ∧
      (∀ x ∈ (handle_scan_progress [42]).dropLast, x < 1) :=
  scan_progress_monotone [42] (by decide)

/-! ## Scan depth (src/bridge.rs, `handle_scan`)

`handle_scan` (lines 127-141) slices the enumerated ascending identifier
list: with `scan_depth > 0` and `scan_depth < total` it keeps the tail
`all_uids[total - scan_depth ..]`, otherwise the whole list; the completion
event always reports `total_emails = all_uids.len()`. -/

/-- The identifier subset `handle_scan` passes to `run_scan`. -/
def uids_to_scan (scan_depth : Nat) (all_uids : List Nat) : List Nat :=
  if 0 < scan_depth ∧ scan_depth < all_uids.length then
    all_uids.drop (all_uids.length - scan_depth)
  else all_uids

/-- The pair `handle_scan` derives from the enumeration: the scanned subset
and the `total_emails` count later reported by `ScanComplete`. -/
def handle_scan_result (scan_depth : Nat) (all_uids : List Nat) : List Nat × Nat :=
  (uids_to_scan scan_depth all_uids, all_uids.length)

/-- C8: `scan_depth = 0` scans the whole ascending identifier list; a
positive depth below the folder size restricts the scan to exactly the last
`scan_depth` identifiers of the ascending list (and to the whole list when
the depth reaches the folder size); in all cases the completion event's
`totalMessages` is the full folder count, independent of the scanned subset.
Concretely, depth 500 against a 10000-message folder scans exactly the
identifiers 9500..9999 while the reported total is 10000. -/
theorem scan_depth_semantics :
    (∀ all_uids : List Nat, uids_to_scan 0 all_uids = all_uids) ∧
      (∀ (d : Nat) (all_uids : List Nat), 0 < d → d < all_uids.length →
        uids_to_scan d all_uids = all_uids.drop (all_uids.length - d) ∧
          (uids_to_scan d all_uids).length = d) ∧
      (∀ (d : Nat) (all_uids : List Nat), all_uids.length ≤ d →
        uids_to_scan d all_uids = all_uids) ∧
      (∀ (d : Nat) (all_uids : List Nat),
        (handle_scan_result d all_uids).2 = all_uids.length) ∧
      (uids_to_scan 500 (List.range 10000) = List.range' 9500 500 ∧
        (handle_scan_result 500 (List.range 10000)).2 = 10000) := by
  refine ⟨?_, ?_, ?_, ?_, ?_, ?_⟩
  · intro l
    simp [uids_to_scan]
  · intro d l h1 h2
    have hu : uids_to_scan d l = l.drop (l.length - d) := by
      simp only [uids_to_scan]
      rw [if_pos (And.intro h1 h2)]
    refine ⟨hu, ?_⟩
    rw [hu, List.length_drop]
    omega
  · intro d l h
    simp only [uids_to_scan]
    rw [if_neg]
    rintro ⟨-, h2⟩
    omega
  · intro d l
    rfl
  · have h1 : (List.range 10000 : List Nat) =
        List.range' 0 9500 ++ List.range' 9500 500 := by
      rw [List.range_eq_range', show (10000 : Nat) = 500 + 9500 from rfl]
      exact (List.range'_append_1 0 9500 500).symm
    have hcond : 0 < 500 ∧ 500 < (List.range 10000 : List Nat).length := by
      rw [List.length_range]
      norm_num
    simp only [uids_to_scan]
    rw [if_pos hcond, List.length_range, show (10000 : Nat) - 500 = 9500 from rfl, h1]
    exact List.drop_left' (by rw [List.length_range'])
  · simp only [handle_scan_result, List.length_range]

/-- Witness for `scan_depth_semantics`: depth 2 against the 3-element list
`[4, 5, 6]` keeps exactly the last 2 identifiers. -/
theorem scan_depth_semantics_witness :
    0 < 2 ∧ 2 < ([4, 5, 6] : List Nat).length ∧
      (uids_to_scan 2 [4, 5, 6] = ([4, 5, 6] : List Nat).drop (([4, 5, 6] : List Nat).length - 2) ∧
        (uids_to_scan 2 [4, 5, 6]).length = 2) :=
  ⟨by decide, by decide, scan_depth_semantics.2.1 2 [4, 5, 6] (by decide) (by decide)⟩

/-! ## Scan totality and partial-failure tolerance (src/imap/scanner.rs,
`run_scan`)

After a successful enumeration, `run_scan` contains no fallible operation:
each worker converts a failed `scan_batch` into an empty sender list sent to
the aggregator (lines 179-185), so every chunk still counts as a completed
batch, the progress sequence is fully emitted, and the function returns `Ok`
with whatever aggregated partially.  An empty identifier list returns
`Ok []` immediately, before any session or progress (lines 143-146).  Chunk
results are summed by a single aggregator, so the sequential model below
aggregates them in chunk order. -/

/-- `SenderInfo` of src/state.rs: a normalized sender with its count. -/
structure SenderInfo where
  email : List Char
  count : Nat
  deriving DecidableEq, Repr

/-- The aggregation the result loop performs (src/imap/scanner.rs lines
198-214): counting occurrences per distinct sender. -/
def tally (ss : List (List Char)) : List SenderInfo :=
  ss.eraseDups.map fun k => ⟨k, ss.count k⟩

/-- Insertion step of the final descending sort by count
(`senders.sort_by(|a, b| b.count.cmp(&a.count))`, line 216). -/
def insertByCount (x : SenderInfo) : List SenderInfo → List SenderInfo
  | [] => [x]
  | y :: ys => if y.count < x.count then x :: y :: ys else y :: insertByCount x ys

/-- Descending-by-count sort of the aggregate. -/
def sortByCountDesc (l : List SenderInfo) : List SenderInfo :=
  l.foldr insertByCount []

/-- Embedding of `run_scan` (src/imap/scanner.rs lines 133-218) given, per
chunk index, the outcome of that chunk's `scan_batch`: the emitted progress
fractions and the final result. -/
def run_scan (uids : List Nat)
    (fetchOutcome : Nat → Except AppError (List (List Char))) :
    List ℚ × Except AppError (List SenderInfo) :=
  if uids.length = 0 then ([], .ok [])
  else
    let chunks := scanChunks MAX_CONCURRENT uids
    let results := (List.range chunks.length).map fun i =>
      match fetchOutcome i with
      | .ok senders => senders
      | .error _ => []
    (run_scan_progress chunks.length, .ok (sortByCountDesc (tally results.flatten)))

/-- C9: once enumeration succeeded, `run_scan` cannot fail: the result is
always `Ok`; an empty identifier list yields `Ok []` with no progress
report; a non-empty list emits exactly one progress fraction per chunk with
the final fraction exactly 1 even when chunks fail; and when every chunk's
fetch fails, the function still returns `Ok` with the empty aggregate. -/
theorem run_scan_never_fails (uids : List Nat)
    (fetchOutcome : Nat → Except AppError (List (List Char))) :
    (∃ r, (run_scan uids fetchOutcome).2 = .ok r) ∧
      (uids = [] → run_scan uids fetchOutcome = ([], .ok [])) ∧
      (uids ≠ [] →
        (run_scan uids fetchOutcome).1.length =
            (scanChunks MAX_CONCURRENT uids).length ∧
          (run_scan uids fetchOutcome).1.getLast? = some 1) ∧
      ((∀ i, ∃ e, fetchOutcome i = .error e) →
        (run_scan uids fetchOutcome).2 = .ok []) := by
  refine ⟨?_, ?_, ?_, ?_⟩
  · rw [run_scan]
    by_cases h : uids.length = 0
    · rw [if_pos h]
      exact ⟨[], rfl⟩
    · rw [if_neg h]
      exact ⟨_, rfl⟩
  · intro h
    subst h
    rfl
  · intro h
    have hlen : ¬ uids.length = 0 := by
      simpa [List.length_eq_zero] using h
    have hN : 1 ≤ (scanChunks MAX_CONCURRENT uids).length := by
      have := scanChunks_ne_nil MAX_CONCURRENT uids h
      have := List.length_pos.mpr this
      omega
    rw [run_scan, if_neg hlen]
    constructor
    · simp [run_scan_progress]
    · exact run_scan_progress_getLast _ hN
  · intro h
    rw [run_scan]
    by_cases hlen : uids.length = 0
    · rw [if_pos hlen]
    · rw [if_neg hlen]
      have hres : ((List.range (scanChunks MAX_CONCURRENT uids).length).map fun i =>
          match fetchOutcome i with
          | .ok senders => senders
          | .error _ => ([] : List (List Char))) =
          (List.range (scanChunks MAX_CONCURRENT uids).length).map
            fun _ => ([] : List (List Char)) := by
        apply List.map_congr_left
        intro i _
        obtain ⟨e, he⟩ := h i
        rw [he]
      simp only [hres]
      have hflat : ((List.range (scanChunks MAX_CONCURRENT uids).length).map
          fun _ => ([] : List (List Char))).flatten = [] := by
        rw [List.flatten_eq_nil_iff]
        intro l hl
        simp only [List.mem_map] at hl
        obtain ⟨i, -, rfl⟩ := hl
        rfl
      rw [hflat]
      rfl

/-- Witness for `run_scan_never_fails`: the empty identifier list, and the
two-element list `[1, 2]` under an always-failing fetch. -/
theorem run_scan_never_fails_witness :
    run_scan [] (fun _ => .error (.Imap "x")) = ([], .ok []) ∧
      (run_scan [1, 2] (fun _ => .error (.Imap "x"))).1.getLast? = some 1 ∧
      (run_scan [1, 2] (fun _ => .error (.Imap "x"))).2 = .ok [] :=
  ⟨(run_scan_never_fails [] (fun _ => .error (.Imap "x"))).2.1 rfl,
    ((run_scan_never_fails [1, 2] (fun _ => .error (.Imap "x"))).2.2.1 (by decide)).2,
    (run_scan_never_fails [1, 2] (fun _ => .error (.Imap "x"))).2.2.2
      (fun i => ⟨.Imap "x", rfl⟩)⟩
